import Mathlib

/-!
Verification development for the PHOTOVOTE repository (`src/app.py`), a
Streamlit photo-voting application backed by a Google-Sheets row store.

The Lean definitions below are a shallow embedding of the Python code:
each definition's doc comment names the `app.py` function (and lines) it
is translated from.  Streamlit's `st.session_state` becomes an explicit
`SessionState` record; button handlers become functions on that record;
the background save thread is modelled as a function whose nondeterministic
environment (lock contention, authentication outcome, write outcome,
wall-clock timestamp) is passed in explicitly as a `SaveEnv`.
-/

namespace PhotoVote

/-- Values of `st.session_state.save_status` (`app.py` 444, 455, 480, 485):
`"pending"`, `"success"`, `"skipped: saving in progress"`, `"error: ..."`. -/
inductive SaveStatus where
  | pending : SaveStatus
  | success : SaveStatus
  | skipped : SaveStatus
  | error (msg : String) : SaveStatus
deriving DecidableEq, Repr

/-- The page currently shown, `st.session_state.view` (`app.py` 930-938). -/
inductive View where
  | login : View
  | instructions : View
  | vote : View
  | favorites : View
  | freeVote : View
  | results : View
deriving DecidableEq, Repr

/-- The per-participant `st.session_state` fields that the core logic reads
and writes (`app.py` 888-897, 596-599, 629-632).  `votedFor` is the Python
dict `voted_for` (submitter → photo id), kept as an insertion-ordered
association list exactly like a Python dict.  `syncSaveOk` is a history
variable added to the embedding: it records that the synchronous save run
by the "complete voting" handler (`app.py` 787-795) has returned success at
some point; no code branches on it. -/
structure SessionState where
  view : View
  votedFor : List (String × String)
  freeVotes : List String
  favorites : List String
  currentIndex : Int
  dirty : Bool
  votingComplete : Bool
  saveStatus : Option SaveStatus
  userRowIndex : Nat
  syncSaveOk : Bool
deriving DecidableEq, Repr

/-- State of `st.session_state` right after the first-run initialisation in `main`
(`app.py` 888-897). -/
def initState : SessionState where
  view := .login
  votedFor := []
  freeVotes := []
  favorites := []
  currentIndex := 0
  dirty := false
  votingComplete := false
  saveStatus := none
  userRowIndex := 0
  syncSaveOk := false

/-- Python dict assignment `d[k] = v`: replace the value in place when the
key is present, otherwise append the new binding at the end. -/
def dictInsert (m : List (String × String)) (k v : String) : List (String × String) :=
  if (m.find? (fun p => p.1 = k)).isSome then
    m.map (fun p => if p.1 = k then (k, v) else p)
  else
    m ++ [(k, v)]

/-- Representative-vote button handler (`app.py` 353-354 in the `vote`
context and 396-398 in the `free_vote` context):
`st.session_state.voted_for[submitter] = photo_id; st.session_state.dirty = True`.
The button is rendered and active whether or not the entry is already the
current choice, so the handler is unconditional. -/
def setRepVote (s : SessionState) (submitter pid : String) : SessionState :=
  { s with votedFor := dictInsert s.votedFor submitter pid, dirty := true }

/-- Favorite toggle button handler (`app.py` 358-361): remove the first
occurrence when present (`list.remove`), append when absent, and set the
dirty flag in both branches. -/
def toggleFavorite (s : SessionState) (pid : String) : SessionState :=
  if pid ∈ s.favorites then
    { s with favorites := s.favorites.erase pid, dirty := true }
  else
    { s with favorites := s.favorites ++ [pid], dirty := true }

/-- The favorites *remove* operation: the "remove from favorites" button is
only rendered when `is_favorite` holds (`app.py` 356-359), so for an absent
id no mutation can be triggered — total, and a no-op on the absent case. -/
def removeFavorite (s : SessionState) (pid : String) : SessionState :=
  if pid ∈ s.favorites then
    { s with favorites := s.favorites.erase pid, dirty := true }
  else s

/-- Free-vote add handler (`app.py` 377-391): the add button is rendered
only when the photo is not already a free vote (`is_free_vote` false) and
`votes_left = quota - len(free_votes) > 0`; otherwise a disabled button is
shown and no mutation is possible. -/
def addFreeVote (quota : Nat) (s : SessionState) (pid : String) : SessionState :=
  if pid ∈ s.freeVotes then s
  else if s.freeVotes.length < quota then
    { s with freeVotes := s.freeVotes ++ [pid], dirty := true }
  else s

/-- Free-vote remove handler (`app.py` 377-382): the remove button is only
rendered when the photo is already a free vote, so removal of an absent id
is a no-op. -/
def removeFreeVote (s : SessionState) (pid : String) : SessionState :=
  if pid ∈ s.freeVotes then
    { s with freeVotes := s.freeVotes.erase pid, dirty := true }
  else s

/-- The nondeterministic environment of one `save_all_progress` run:
whether the shared `save_lock` is currently held by another in-flight save,
whether the per-thread gspread authentication succeeds, whether the
`sheet.update` API call succeeds, plus the wall-clock timestamp string the
caller computed. -/
structure SaveEnv where
  lockBusy : Bool
  authOk : Bool
  writeOk : Bool
  ts : String
deriving DecidableEq, Repr

/-- The observable outcome of one `save_all_progress` run: the
`save_status` it stored, the dirty flag afterwards, whether this call still
holds the lock on return, whether it performed the per-thread
authentication, and the row write it issued (row number and the four cell
values of `B..E`), if any. -/
structure SaveRun where
  status : SaveStatus
  dirty : Bool
  lockHeldAtEnd : Bool
  authAttempted : Bool
  written : Option (Nat × List String)
deriving DecidableEq, Repr

/-- Function `save_all_progress` (`app.py` 433-491).  Control flow of the source:
`lock.acquire(blocking=False)` fails → record `skipped` and return at once
(before any authentication or sheet access); otherwise authenticate a fresh
thread-local gspread client (failure → `error`, early return), issue one
`sheet.update('B{row}:E{row}', [[json_voted, json_free, json_fav, ts]])`
(exception → `error`), on success set `save_status = "success"` and
`dirty = False`; the `finally` block releases the lock on every path that
acquired it. -/
def save_all_progress (env : SaveEnv) (dirty : Bool) (rowIndex : Nat)
    (jsonVoted jsonFree jsonFav : String) : SaveRun :=
  if env.lockBusy then
    { status := .skipped, dirty := dirty, lockHeldAtEnd := false,
      authAttempted := false, written := none }
  else if env.authOk = false then
    { status := .error "auth", dirty := dirty, lockHeldAtEnd := false,
      authAttempted := true, written := none }
  else if env.writeOk then
    { status := .success, dirty := false, lockHeldAtEnd := false,
      authAttempted := true,
      written := some (rowIndex, [jsonVoted, jsonFree, jsonFav, env.ts]) }
  else
    { status := .error "update", dirty := dirty, lockHeldAtEnd := false,
      authAttempted := true, written := none }

end PhotoVote

namespace PhotoVote

/-- C2: every ballot mutation (representative vote, favorite toggle,
free-vote add within quota, free-vote remove of a present id) sets the
dirty flag unconditionally — in particular `setRepVote` sets it even when
the chosen photo equals the previous choice — and `save_all_progress`
started with the flag set clears it exactly when its result is `success`,
leaving it set after a `skipped` or `error` outcome. -/
theorem claim_C2 (s : SessionState) (sub pid : String) (quota : Nat) :
    (setRepVote s sub pid).dirty = true ∧
    (toggleFavorite s pid).dirty = true ∧
    (pid ∉ s.freeVotes → s.freeVotes.length < quota →
      (addFreeVote quota s pid).dirty = true) ∧
    (pid ∈ s.freeVotes → (removeFreeVote s pid).dirty = true) ∧
    (∀ (env : SaveEnv) (r : Nat) (jv jf jfa : String),
      (save_all_progress env true r jv jf jfa).dirty = false ↔
        (save_all_progress env true r jv jf jfa).status = .success) := by
  refine ⟨rfl, ?_, ?_, ?_, ?_⟩
  · unfold toggleFavorite
    split <;> rfl
  · intro hnot hlt
    unfold addFreeVote
    rw [if_neg hnot, if_pos hlt]
  · intro hmem
    unfold removeFreeVote
    rw [if_pos hmem]
  · intro env r jv jf jfa
    unfold save_all_progress
    rcases env with ⟨lb, ao, wo, ts⟩
    cases lb <;> cases ao <;> cases wo <;> simp

/-- Witness for C2 at concrete inputs. -/
theorem claim_C2_witness :
    (setRepVote initState "A" "p1").dirty = true ∧
    ("p2" ∉ initState.freeVotes ∧ initState.freeVotes.length < 2 ∧
      (addFreeVote 2 initState "p2").dirty = true) ∧
    ((save_all_progress ⟨false, true, true, "t"⟩ true 2 "a" "b" "c").dirty = false ↔
      (save_all_progress ⟨false, true, true, "t"⟩ true 2 "a" "b" "c").status = .success) := by
  have h := claim_C2 initState "A" "p1" 2
  exact ⟨h.1, ⟨by decide, by decide,
    h.2.2.1 (by decide) (by decide)⟩, h.2.2.2.2 ⟨false, true, true, "t"⟩ 2 "a" "b" "c"⟩

/-- C3: when the save lock is already held, `save_all_progress` returns
`skipped` immediately, without authenticating, without writing any row,
and with the dirty flag unchanged; and on every exit path the call has
released (never still holds) the lock. -/
theorem claim_C3 (env : SaveEnv) (d : Bool) (r : Nat) (jv jf jfa : String) :
    (env.lockBusy = true →
      (save_all_progress env d r jv jf jfa).status = .skipped ∧
      (save_all_progress env d r jv jf jfa).authAttempted = false ∧
      (save_all_progress env d r jv jf jfa).written = none ∧
      (save_all_progress env d r jv jf jfa).dirty = d) ∧
    (save_all_progress env d r jv jf jfa).lockHeldAtEnd = false := by
  rcases env with ⟨lb, ao, wo, ts⟩
  constructor
  · intro hlb
    cases hlb
    exact ⟨rfl, rfl, rfl, rfl⟩
  · unfold save_all_progress
    cases lb <;> cases ao <;> cases wo <;> rfl

/-- Witness for C3 with the lock held. -/
theorem claim_C3_witness :
    (save_all_progress ⟨true, true, true, "t"⟩ true 3 "a" "b" "c").status = .skipped ∧
    (save_all_progress ⟨true, true, true, "t"⟩ true 3 "a" "b" "c").authAttempted = false ∧
    (save_all_progress ⟨true, true, true, "t"⟩ true 3 "a" "b" "c").written = none ∧
    (save_all_progress ⟨true, true, true, "t"⟩ true 3 "a" "b" "c").dirty = true ∧
    (save_all_progress ⟨true, true, true, "t"⟩ true 3 "a" "b" "c").lockHeldAtEnd = false := by
  have h := claim_C3 ⟨true, true, true, "t"⟩ true 3 "a" "b" "c"
  have h1 := h.1 rfl
  exact ⟨h1.1, h1.2.1, h1.2.2.1, h1.2.2.2, h.2⟩

/-- C6: when the free-vote sequence already has quota-many entries, an
attempted add is rejected locally: the free-vote sequence and the dirty
flag (indeed the whole session state) are unchanged. -/
theorem claim_C6 (quota : Nat) (s : SessionState) (pid : String)
    (h : s.freeVotes.length = quota) :
    (addFreeVote quota s pid).freeVotes = s.freeVotes ∧
    (addFreeVote quota s pid).dirty = s.dirty ∧
    addFreeVote quota s pid = s := by
  have hne : ¬ s.freeVotes.length < quota := by omega
  unfold addFreeVote
  rcases Decidable.em (pid ∈ s.freeVotes) with hm | hm
  · rw [if_pos hm]
    exact ⟨rfl, rfl, rfl⟩
  · rw [if_neg hm, if_neg hne]
    exact ⟨rfl, rfl, rfl⟩

/-- Witness for C6: a full two-vote ballot rejects a third free vote. -/
theorem claim_C6_witness :
    (addFreeVote 2 { initState with freeVotes := ["e2", "e3"] } "e4") =
      { initState with freeVotes := ["e2", "e3"] } := by
  exact (claim_C6 2 { initState with freeVotes := ["e2", "e3"] } "e4" (by decide)).2.2

/-- C7: removing an id that is not in the free votes (respectively not in
the favorites) is a no-op: the session state is unchanged, and the
operation is total (no error is raised — the remove branch is guarded by a
membership test, so Python's `list.remove` never sees an absent id). -/
theorem claim_C7 (s : SessionState) (pid : String) :
    (pid ∉ s.freeVotes → removeFreeVote s pid = s) ∧
    (pid ∉ s.favorites → removeFavorite s pid = s) := by
  constructor
  · intro h
    unfold removeFreeVote
    rw [if_neg h]
  · intro h
    unfold removeFavorite
    rw [if_neg h]

/-- Witness for C7 at a concrete absent id. -/
theorem claim_C7_witness :
    removeFreeVote { initState with freeVotes := ["e1"] } "zz" =
      { initState with freeVotes := ["e1"] } ∧
    removeFavorite { initState with favorites := ["e1"] } "zz" =
      { initState with favorites := ["e1"] } := by
  exact ⟨(claim_C7 { initState with freeVotes := ["e1"] } "zz").1 (by decide),
         (claim_C7 { initState with favorites := ["e1"] } "zz").2 (by decide)⟩

/-- One row of the `UserData` sheet: column A is the voter name, columns
B-D the three serialized ballot fields, column E the last-write timestamp
(`app.py` 610: `new_row_data = [name, "{}", "[]", "[]", timestamp_str]`). -/
structure UserRow where
  name : String
  votedJson : String
  freeJson : String
  favJson : String
  timestamp : String
deriving DecidableEq, Repr

/-- Column read `sheet_userdata.col_values(1)` (`app.py` 574, 616): the ordered list of
column-A values of the sheet. -/
def colValues (rows : List UserRow) : List String := rows.map (fun r => r.name)

/-- The freshly appended row of a first registration, with empty ballot
fields (`app.py` 610-611). -/
def emptyRow (name ts : String) : UserRow :=
  { name := name, votedJson := "\x7b\x7d", freeJson := "[]", favJson := "[]", timestamp := ts }

/-- The comprehension `[i for i, user in enumerate(latest_users_list) if user == name]`
(`app.py` 620). -/
def matchingIndices (users : List String) (name : String) : List Nat :=
  ((users.enum).filter (fun p => p.2 = name)).map (fun p => p.1)

/-- The slot-resolution protocol of the login handler (`app.py` 569-633),
abstracted over the sheet contents.  Existing user (`name in
all_users_list`): bind to `all_users_list.index(name) + 1`, the 1-based row
of the first occurrence, without touching the sheet.  New user: append one
row with empty ballot fields, re-read column A, collect all matching
indices, and bind to `min(indices) + 1`.  Returns the sheet contents after
the call and the bound 1-based row (`none` models Python's `min` of an
empty list, which cannot occur because the caller just appended a match). -/
def resolve (store : List UserRow) (name ts : String) : List UserRow × Option Nat :=
  match (colValues store).findIdx? (fun u => u = name) with
  | some i => (store, some (i + 1))
  | none =>
      (store ++ [emptyRow name ts],
        ((matchingIndices (colValues (store ++ [emptyRow name ts])) name).min?).map
          (fun i => i + 1))

theorem foldl_min_of_le (xs : List Nat) : ∀ (a : Nat), (∀ x ∈ xs, a ≤ x) →
    xs.foldl min a = a := by
  induction xs with
  | nil => intro a _; rfl
  | cons x t ih =>
      intro a h
      have hx : min a x = a := Nat.min_eq_left (h x (by simp))
      simp only [List.foldl_cons, hx]
      exact ih a (fun y hy => h y (by simp [hy]))

/-- Python's `min` over the indices of the matches, taken over an
enumeration starting at `k`, finds the first match: offset-generalised
version. -/
theorem min_matching_enumFrom (name : String) :
    ∀ (l : List String) (k : Nat),
      (((l.enumFrom k).filter (fun p => p.2 = name)).map (fun p => p.1)).min? =
        (l.findIdx? (fun u => u = name)).map (fun i => i + k) := by
  intro l
  induction l with
  | nil => intro k; simp
  | cons a t ih =>
      intro k
      by_cases h : a = name
      · have hstep : (((a :: t).enumFrom k).filter (fun p => p.2 = name)).map
            (fun p => p.1) =
            k :: (((t.enumFrom (k + 1)).filter (fun p => p.2 = name)).map
              (fun p => p.1)) := by
          simp [List.enumFrom_cons, List.filter_cons, h]
        rw [hstep]
        have hbound : ∀ x ∈ ((t.enumFrom (k + 1)).filter
            (fun p => p.2 = name)).map (fun p => p.1), k ≤ x := by
          intro x hx
          rcases List.mem_map.1 hx with ⟨pr, hpr, hfst⟩
          have hmem := List.mem_of_mem_filter hpr
          have := List.le_fst_of_mem_enumFrom hmem
          omega
        have hmin : (k :: (((t.enumFrom (k + 1)).filter (fun p => p.2 = name)).map
            (fun p => p.1))).min? = some k := by
          rw [List.min?_cons']
          rw [foldl_min_of_le _ k hbound]
        rw [hmin]
        have hfind : (a :: t).findIdx? (fun u => u = name) = some 0 := by
          simp [List.findIdx?_cons, h]
        rw [hfind]
        simp
      · have hstep : (((a :: t).enumFrom k).filter (fun p => p.2 = name)).map
            (fun p => p.1) =
            ((t.enumFrom (k + 1)).filter (fun p => p.2 = name)).map
              (fun p => p.1) := by
          simp [List.enumFrom_cons, List.filter_cons, h]
        rw [hstep, ih (k + 1)]
        have hfind : (a :: t).findIdx? (fun u => u = name) =
            (t.findIdx? (fun u => u = name)).map (fun i => i + 1) := by
          simp [List.findIdx?_cons, h, List.findIdx?_succ]
        rw [hfind]
        cases t.findIdx? (fun u => u = name) with
        | none => rfl
        | some m => simp; omega

/-- Taking `min(indices)` over the matching positions equals the position of the
first match. -/
theorem min?_matchingIndices (users : List String) (name : String) :
    (matchingIndices users name).min? = users.findIdx? (fun u => u = name) := by
  have h := min_matching_enumFrom name users 0
  unfold matchingIndices
  rw [show users.enum = users.enumFrom 0 from rfl, h]
  cases users.findIdx? (fun u => u = name) <;> simp

theorem findIdx?_colValues_of_not_mem {users : List String} {name : String}
    (h : name ∉ users) : users.findIdx? (fun u => u = name) = none := by
  rw [List.findIdx?_eq_none_iff]
  intro x hx
  simp only [decide_eq_false_iff_not]
  intro hxn
  exact h (hxn ▸ hx)

/-- C1: slot resolution.  (a) If the identity is already in the persisted
list, `resolve` binds to the lowest-index occurrence and appends nothing.
(b) If absent, it appends exactly one row with empty ballot fields and
binds to row `length + 1`, the lowest-index match after the re-read.
(c) Race: with two first-registration appends of the same identity landing
before either re-read, the re-read-and-take-minimum step yields the same
canonical slot `length + 1` (the lower of the two new rows) for both
racing sessions, and a later `resolve` against the raced sheet returns
that same slot without appending again. -/
theorem claim_C1 (store : List UserRow) (name ts : String) :
    (name ∈ colValues store →
      (resolve store name ts).1 = store ∧
      ∃ i, (resolve store name ts).2 = some (i + 1) ∧
        (colValues store)[i]? = some name ∧
        ∀ j, j < i → (colValues store)[j]? ≠ some name) ∧
    (name ∉ colValues store →
      (resolve store name ts).1 = store ++ [emptyRow name ts] ∧
      (resolve store name ts).2 = some (store.length + 1)) ∧
    (name ∉ colValues store → ∀ ts1 ts2,
      ((matchingIndices (colValues (store ++ [emptyRow name ts1, emptyRow name ts2]))
          name).min?).map (fun i => i + 1) = some (store.length + 1) ∧
      (resolve (store ++ [emptyRow name ts1, emptyRow name ts2]) name ts).1 =
        store ++ [emptyRow name ts1, emptyRow name ts2] ∧
      (resolve (store ++ [emptyRow name ts1, emptyRow name ts2]) name ts).2 =
        some (store.length + 1)) := by
  refine ⟨?_, ?_, ?_⟩
  · intro hmem
    have hex : ∃ x, x ∈ colValues store ∧ (fun u => decide (u = name)) x := by
      exact ⟨name, hmem, by simp⟩
    rcases hsome : (colValues store).findIdx? (fun u => u = name) with _ | i
    · rw [List.findIdx?_eq_none_iff] at hsome
      have := hsome name hmem
      simp at this
    · constructor
      · unfold resolve
        rw [hsome]
      · refine ⟨i, ?_, ?_, ?_⟩
        · unfold resolve
          rw [hsome]
        · rw [List.findIdx?_eq_some_iff_getElem] at hsome
          rcases hsome with ⟨hilen, hpi, _⟩
          rw [List.getElem?_eq_getElem hilen]
          simp only [decide_eq_true_eq] at hpi
          rw [hpi]
        · rw [List.findIdx?_eq_some_iff_getElem] at hsome
          rcases hsome with ⟨hilen, _, hmin⟩
          intro j hj hc
          have hjlen : j < (colValues store).length := Nat.lt_trans hj hilen
          rw [List.getElem?_eq_getElem hjlen] at hc
          have hval : (colValues store)[j] = name := by
            injection hc
          have hm := hmin j hj
          rw [hval] at hm
          simp at hm
  · intro habs
    have hnone := findIdx?_colValues_of_not_mem habs
    have hcol : colValues (store ++ [emptyRow name ts]) = colValues store ++ [name] := by
      simp [colValues, emptyRow]
    have hfind : (colValues store ++ [name]).findIdx? (fun u => u = name) =
        some (colValues store).length := by
      rw [List.findIdx?_append, hnone]
      simp [List.findIdx?_cons]
    constructor
    · unfold resolve
      rw [hnone]
    · unfold resolve
      rw [hnone]
      simp only [min?_matchingIndices, hcol, hfind, Option.map_some]
      simp [colValues]
  · intro habs ts1 ts2
    have hnone := findIdx?_colValues_of_not_mem habs
    have hcol : colValues (store ++ [emptyRow name ts1, emptyRow name ts2]) =
        colValues store ++ [name, name] := by
      simp [colValues, emptyRow]
    have hfind : (colValues store ++ [name, name]).findIdx? (fun u => u = name) =
        some (colValues store).length := by
      rw [List.findIdx?_append, hnone]
      simp [List.findIdx?_cons]
    have hlen : (colValues store).length = store.length := by
      simp [colValues]
    refine ⟨?_, ?_, ?_⟩
    · rw [hcol, min?_matchingIndices, hfind, hlen]
      rfl
    · unfold resolve
      rw [hcol, hfind]
    · unfold resolve
      rw [hcol, hfind, hlen]

/-- Witness for C1: a concrete store with one unrelated row, identity
"2Hx" absent; after the raced double-append both sessions converge on row
2 and a later resolve also returns row 2. -/
theorem claim_C1_witness :
    ("2Hx" ∉ colValues [emptyRow "other" "t0"] ∧
      (resolve [emptyRow "other" "t0"] "2Hx" "t1").2 = some 2) ∧
    (resolve ([emptyRow "other" "t0"] ++ [emptyRow "2Hx" "t1", emptyRow "2Hx" "t2"])
        "2Hx" "t3").2 = some 2 := by
  have h := claim_C1 [emptyRow "other" "t0"] "2Hx" "t1"
  refine ⟨⟨by decide, (h.2.1 (by decide)).2⟩, ?_⟩
  have h3 := (claim_C1 [emptyRow "other" "t0"] "2Hx" "t3").2.2 (by decide) "t1" "t2"
  exact h3.2.2

/-- The score a catalog entry carries after the results-page left-merge
with the score sheet and the two `fillna(0)` steps (`app.py` 846-848): the
score record keyed by the photo id, or `0` when the entry has no score
record. -/
def scoreOf (scores : List (String × Int)) (pid : String) : Int :=
  match scores.find? (fun p => p.1 = pid) with
  | some p => p.2
  | none => 0

/-- pandas `rank(method='min', ascending=False)` over a series of scores
(`app.py` 851-852): the data is sorted descending and every value receives
the 1-based position of its first occurrence in that sorted order, so a
tie group shares the smallest ordinal position in the group. -/
def rankMinDesc (allScores : List Int) (x : Int) : Nat :=
  match (allScores.mergeSort (fun a b => decide (b ≤ a))).findIdx? (fun y => y = x) with
  | some i => i + 1
  | none => 0

/-- The rank the results page assigns to catalog entry `pid` (`app.py`
846-852): competition ranking of its merged score among the scores of the
whole catalog. -/
def rankOf (catalog : List String) (scores : List (String × Int)) (pid : String) : Nat :=
  rankMinDesc (catalog.map (scoreOf scores)) (scoreOf scores pid)

/-- In a descending-sorted list, the first occurrence of a present value
sits right after exactly the elements strictly greater than it. -/
theorem findIdx?_sorted_desc (x : Int) :
    ∀ (l : List Int), l.Pairwise (fun a b => b ≤ a) → x ∈ l →
      l.findIdx? (fun y => y = x) = some (l.countP (fun y => decide (x < y))) := by
  intro l
  induction l with
  | nil => intro _ h; simp at h
  | cons a t ih =>
      intro hp hm
      rcases List.pairwise_cons.1 hp with ⟨ha, hpt⟩
      by_cases hax : a = x
      · have hcount : (a :: t).countP (fun y => decide (x < y)) = 0 := by
          rw [List.countP_eq_zero]
          intro y hy
          rcases List.mem_cons.1 hy with h1 | h2
          · subst h1
            subst hax
            simp
          · have hya := ha y h2
            subst hax
            simp only [decide_eq_true_eq]
            omega
        rw [hcount]
        simp [List.findIdx?_cons, hax]
      · have hxt : x ∈ t := by
          rcases List.mem_cons.1 hm with h1 | h2
          · exact absurd h1.symm hax
          · exact h2
        have hxa : x < a := lt_of_le_of_ne (ha x hxt) (fun h => hax h.symm)
        have hrec := ih hpt hxt
        rw [List.findIdx?_cons, if_neg (by simp [hax] : ¬ (decide (a = x) = true)),
          List.findIdx?_succ, hrec, List.countP_cons]
        simp [hxa, Nat.add_comm]

/-- C4: competition ranking.  With every catalog entry scored by the
left-merge (absent score records counting 0), (a) each catalog entry's
rank is exactly `1 + (number of catalog entries with strictly greater
merged score)` — competition ranking, not dense ranking — and (b) two
entries with equal merged scores receive equal ranks. -/
theorem claim_C4 (catalog : List String) (scores : List (String × Int)) (pid : String)
    (hmem : pid ∈ catalog) :
    rankOf catalog scores pid =
      1 + catalog.countP (fun q => decide (scoreOf scores pid < scoreOf scores q)) ∧
    (∀ p q : String, scoreOf scores p = scoreOf scores q →
      rankOf catalog scores p = rankOf catalog scores q) := by
  constructor
  · have htrans : ∀ (a b c : Int), decide (b ≤ a) → decide (c ≤ b) → decide (c ≤ a) := by
      intro a b c h1 h2
      simp only [decide_eq_true_eq] at h1 h2 ⊢
      omega
    have htotal : ∀ (a b : Int), decide (b ≤ a) || decide (a ≤ b) := by
      intro a b
      rcases le_total b a with h | h
      · simp [h]
      · simp [h]
    have hsortedB := List.sorted_mergeSort htrans htotal (catalog.map (scoreOf scores))
    have hsorted : (List.mergeSort (catalog.map (scoreOf scores))
        (fun a b => decide (b ≤ a))).Pairwise (fun a b => b ≤ a) :=
      hsortedB.imp (fun h => of_decide_eq_true h)
    have hperm := List.mergeSort_perm (catalog.map (scoreOf scores))
      (fun a b => decide (b ≤ a))
    have hmem2 : scoreOf scores pid ∈ List.mergeSort (catalog.map (scoreOf scores))
        (fun a b => decide (b ≤ a)) := by
      rw [List.mem_mergeSort]
      exact List.mem_map_of_mem _ hmem
    have hfind := findIdx?_sorted_desc (scoreOf scores pid) _ hsorted hmem2
    unfold rankOf rankMinDesc
    rw [hfind]
    rw [hperm.countP_eq, List.countP_map, Nat.add_comm]
    rfl
  · intro p q hpq
    unfold rankOf
    rw [hpq]

/-- Witness for C4: merged scores `[100, 90, 90, 80]` receive competition
ranks `[1, 2, 2, 4]`. -/
theorem claim_C4_witness :
    rankOf ["e1", "e2", "e3", "e4"]
        [("e1", 100), ("e2", 90), ("e3", 90), ("e4", 80)] "e1" = 1 ∧
    rankOf ["e1", "e2", "e3", "e4"]
        [("e1", 100), ("e2", 90), ("e3", 90), ("e4", 80)] "e2" = 2 ∧
    rankOf ["e1", "e2", "e3", "e4"]
        [("e1", 100), ("e2", 90), ("e3", 90), ("e4", 80)] "e3" = 2 ∧
    rankOf ["e1", "e2", "e3", "e4"]
        [("e1", 100), ("e2", 90), ("e3", 90), ("e4", 80)] "e4" = 4 := by
  refine ⟨?_, ?_, ?_, ?_⟩
  · rw [(claim_C4 ["e1", "e2", "e3", "e4"]
      [("e1", 100), ("e2", 90), ("e3", 90), ("e4", 80)] "e1" (by decide)).1]
    decide
  · rw [(claim_C4 ["e1", "e2", "e3", "e4"]
      [("e1", 100), ("e2", 90), ("e3", 90), ("e4", 80)] "e2" (by decide)).1]
    decide
  · rw [(claim_C4 ["e1", "e2", "e3", "e4"]
      [("e1", 100), ("e2", 90), ("e3", 90), ("e4", 80)] "e3" (by decide)).1]
    decide
  · rw [(claim_C4 ["e1", "e2", "e3", "e4"]
      [("e1", 100), ("e2", 90), ("e3", 90), ("e4", 80)] "e4" (by decide)).1]
    decide

/-- Serialisation `json.dumps` of a string, assuming (as holds for Drive file ids and
the voter names at hand) no characters needing JSON escapes. -/
def jsonStr (s : String) : String := "\"" ++ s ++ "\""

/-- Serialisation `json.dumps` of a list of strings (`app.py` 512-513, 782-783). -/
def jsonList (l : List String) : String :=
  "[" ++ String.intercalate ", " (l.map jsonStr) ++ "]"

/-- Serialisation `json.dumps` of a dict of strings (`app.py` 511, 781). -/
def jsonDict (m : List (String × String)) : String :=
  "\x7b" ++
    String.intercalate ", " (m.map (fun p => jsonStr p.1 ++ ": " ++ jsonStr p.2)) ++
    "\x7d"

/-- Function `transition_and_save_in_background` (`app.py` 495-547): when the dirty
flag is set, serialize the ballot on the interactive path and hand it to a
`save_all_progress` thread (the thread only ever touches `dirty` and
`save_status`, which we compress into an atomic effect driven by the
nondeterministic `SaveEnv`); then apply the navigation unconditionally —
set the target view if one was given and add `index_change` to the current
index. -/
def transitionAndSave (env : SaveEnv) (viewTarget : Option View) (indexChange : Int)
    (s : SessionState) : SessionState :=
  let s1 :=
    if s.dirty then
      let saveRun := save_all_progress env s.dirty s.userRowIndex
        (jsonDict s.votedFor) (jsonList s.freeVotes) (jsonList s.favorites)
      { s with dirty := saveRun.dirty, saveStatus := some saveRun.status }
    else s
  let s2 :=
    match viewTarget with
    | some v => { s1 with view := v }
    | none => s1
  { s2 with currentIndex := s2.currentIndex + indexChange }

/-- One user interaction, as the page router renders it (`app.py`
930-938); constructors carry the nondeterministic environment of any save
they may trigger, and handlers whose buttons are not rendered in the
current state leave the state unchanged (the guards mirror the rendering
conditions of each page). -/
inductive Action where
  | decideLogin (name : String) (voted : List (String × String))
      (free fav : List String) (row : Nat) : Action
  | startVoting : Action
  | openFavorites (env : SaveEnv) : Action
  | closeFavorites (env : SaveEnv) : Action
  | navPrev (env : SaveEnv) : Action
  | navNext (env : SaveEnv) : Action
  | finishRepVoting (env : SaveEnv) : Action
  | completeVoting (env : SaveEnv) : Action
  | viewResults : Action
  | backToFreeVote (env : SaveEnv) : Action
  | repVote (sub pid : String) : Action
  | favToggle (pid : String) : Action
  | freeAdd (pid : String) : Action
  | freeRemove (pid : String) : Action

/-- One step of the interactive session.  Guards, per page:
login `決定` requires a nonempty name and loads the resolved ballot
(`app.py` 559-655); instructions `投票を開始する` moves to `vote`
(688-691); on the vote page the back button is rendered only when
`current_index > 0` and the forward button only when a next submitter
exists, the last position instead offering the move to `free_vote`
(717-726); the favorites page returns to `vote` (741); on the free-vote
page `全ての投票を完了する` is rendered only while `voting_complete` is
false and runs the save synchronously, setting `voting_complete` only on
`success` (774-819), and `最終結果を見る` is rendered only once
`voting_complete` holds (821-824); the results page can go back to
`free_vote` (832).  Ballot mutations run through the component handlers of
the page that renders them. -/
def step (quota count : Nat) (s : SessionState) (a : Action) : SessionState :=
  match a with
  | .decideLogin name voted free fav row =>
      if s.view = .login ∧ name ≠ "" then
        { s with view := .instructions, votedFor := voted, freeVotes := free,
                 favorites := fav, userRowIndex := row }
      else s
  | .startVoting =>
      if s.view = .instructions then { s with view := .vote } else s
  | .openFavorites env =>
      if s.view = .vote then transitionAndSave env (some .favorites) 0 s else s
  | .closeFavorites env =>
      if s.view = .favorites then transitionAndSave env (some .vote) 0 s else s
  | .navPrev env =>
      if s.view = .vote ∧ 0 < s.currentIndex then
        transitionAndSave env none (-1) s
      else s
  | .navNext env =>
      if s.view = .vote ∧ s.currentIndex + 1 < (count : Int) then
        transitionAndSave env none 1 s
      else s
  | .finishRepVoting env =>
      if s.view = .vote ∧ ¬ s.currentIndex + 1 < (count : Int) then
        transitionAndSave env (some .freeVote) 0 s
      else s
  | .completeVoting env =>
      if s.view = .freeVote ∧ s.votingComplete = false then
        if (save_all_progress env s.dirty s.userRowIndex
            (jsonDict s.votedFor) (jsonList s.freeVotes) (jsonList s.favorites)).status
            = .success then
          { s with
              dirty := (save_all_progress env s.dirty s.userRowIndex
                (jsonDict s.votedFor) (jsonList s.freeVotes) (jsonList s.favorites)).dirty,
              saveStatus := none, votingComplete := true, syncSaveOk := true }
        else
          { s with
              dirty := (save_all_progress env s.dirty s.userRowIndex
                (jsonDict s.votedFor) (jsonList s.freeVotes) (jsonList s.favorites)).dirty,
              saveStatus := some (save_all_progress env s.dirty s.userRowIndex
                (jsonDict s.votedFor) (jsonList s.freeVotes) (jsonList s.favorites)).status }
      else s
  | .viewResults =>
      if s.view = .freeVote ∧ s.votingComplete = true then
        { s with view := .results }
      else s
  | .backToFreeVote env =>
      if s.view = .results then transitionAndSave env (some .freeVote) 0 s else s
  | .repVote sub pid =>
      if s.view = .vote ∨ s.view = .freeVote then setRepVote s sub pid else s
  | .favToggle pid =>
      if s.view = .vote then toggleFavorite s pid else s
  | .freeAdd pid =>
      if s.view = .freeVote then addFreeVote quota s pid else s
  | .freeRemove pid =>
      if s.view = .freeVote then removeFreeVote s pid else s

/-- The session after a sequence of user interactions, starting from the
freshly initialised `st.session_state`. -/
def runApp (quota count : Nat) (acts : List Action) : SessionState :=
  acts.foldl (step quota count) initState

theorem transitionAndSave_fields (env : SaveEnv) (v : Option View) (dx : Int)
    (s : SessionState) :
    (transitionAndSave env v dx s).currentIndex = s.currentIndex + dx ∧
    (transitionAndSave env v dx s).votingComplete = s.votingComplete ∧
    (transitionAndSave env v dx s).syncSaveOk = s.syncSaveOk ∧
    (transitionAndSave env v dx s).view = (v.getD s.view) := by
  unfold transitionAndSave
  cases v <;> by_cases h : s.dirty = true <;> simp [h]

theorem mutation_fields (s : SessionState) (sub pid : String) (quota : Nat) :
    ((setRepVote s sub pid).currentIndex = s.currentIndex ∧
      (setRepVote s sub pid).votingComplete = s.votingComplete ∧
      (setRepVote s sub pid).syncSaveOk = s.syncSaveOk ∧
      (setRepVote s sub pid).view = s.view) ∧
    ((toggleFavorite s pid).currentIndex = s.currentIndex ∧
      (toggleFavorite s pid).votingComplete = s.votingComplete ∧
      (toggleFavorite s pid).syncSaveOk = s.syncSaveOk ∧
      (toggleFavorite s pid).view = s.view) ∧
    ((addFreeVote quota s pid).currentIndex = s.currentIndex ∧
      (addFreeVote quota s pid).votingComplete = s.votingComplete ∧
      (addFreeVote quota s pid).syncSaveOk = s.syncSaveOk ∧
      (addFreeVote quota s pid).view = s.view) ∧
    ((removeFreeVote s pid).currentIndex = s.currentIndex ∧
      (removeFreeVote s pid).votingComplete = s.votingComplete ∧
      (removeFreeVote s pid).syncSaveOk = s.syncSaveOk ∧
      (removeFreeVote s pid).view = s.view) := by
  refine ⟨⟨rfl, rfl, rfl, rfl⟩, ?_, ?_, ?_⟩
  · unfold toggleFavorite
    split <;> exact ⟨rfl, rfl, rfl, rfl⟩
  · unfold addFreeVote
    split
    · exact ⟨rfl, rfl, rfl, rfl⟩
    · split <;> exact ⟨rfl, rfl, rfl, rfl⟩
  · unfold removeFreeVote
    split <;> exact ⟨rfl, rfl, rfl, rfl⟩

theorem step_index_bounds (quota count : Nat) (s : SessionState) (a : Action)
    (h1 : 0 ≤ s.currentIndex) (h2 : s.currentIndex < (count : Int)) :
    0 ≤ (step quota count s a).currentIndex ∧
      (step quota count s a).currentIndex < (count : Int) := by
  cases a with
  | decideLogin name voted free fav row =>
      simp only [step]
      split <;> simp_all
  | startVoting =>
      simp only [step]
      split <;> simp_all
  | openFavorites env =>
      simp only [step]
      split
      · rw [(transitionAndSave_fields env (some .favorites) 0 s).1]
        omega
      · exact ⟨h1, h2⟩
  | closeFavorites env =>
      simp only [step]
      split
      · rw [(transitionAndSave_fields env (some .vote) 0 s).1]
        omega
      · exact ⟨h1, h2⟩
  | navPrev env =>
      simp only [step]
      split
      · rw [(transitionAndSave_fields env none (-1) s).1]
        rename_i hyp
        omega
      · exact ⟨h1, h2⟩
  | navNext env =>
      simp only [step]
      split
      · rw [(transitionAndSave_fields env none 1 s).1]
        rename_i hyp
        omega
      · exact ⟨h1, h2⟩
  | finishRepVoting env =>
      simp only [step]
      split
      · rw [(transitionAndSave_fields env (some .freeVote) 0 s).1]
        omega
      · exact ⟨h1, h2⟩
  | completeVoting env =>
      simp only [step]
      split
      · split <;> exact ⟨h1, h2⟩
      · exact ⟨h1, h2⟩
  | viewResults =>
      simp only [step]
      split <;> simp_all
  | backToFreeVote env =>
      simp only [step]
      split
      · rw [(transitionAndSave_fields env (some .freeVote) 0 s).1]
        omega
      · exact ⟨h1, h2⟩
  | repVote sub pid =>
      simp only [step]
      split
      · rw [(mutation_fields s sub pid quota).1.1]
        exact ⟨h1, h2⟩
      · exact ⟨h1, h2⟩
  | favToggle pid =>
      simp only [step]
      split
      · rw [(mutation_fields s "" pid quota).2.1.1]
        exact ⟨h1, h2⟩
      · exact ⟨h1, h2⟩
  | freeAdd pid =>
      simp only [step]
      split
      · rw [(mutation_fields s "" pid quota).2.2.1.1]
        exact ⟨h1, h2⟩
      · exact ⟨h1, h2⟩
  | freeRemove pid =>
      simp only [step]
      split
      · rw [(mutation_fields s "" pid quota).2.2.2.1]
        exact ⟨h1, h2⟩
      · exact ⟨h1, h2⟩

theorem foldl_index_bounds (quota count : Nat) :
    ∀ (acts : List Action) (s : SessionState),
      0 ≤ s.currentIndex → s.currentIndex < (count : Int) →
      0 ≤ (acts.foldl (step quota count) s).currentIndex ∧
        (acts.foldl (step quota count) s).currentIndex < (count : Int) := by
  intro acts
  induction acts with
  | nil => intro s h1 h2; exact ⟨h1, h2⟩
  | cons a t ih =>
      intro s h1 h2
      have hstep := step_index_bounds quota count s a h1 h2
      exact ih (step quota count s a) hstep.1 hstep.2

/-- C8: navigation keeps the current index inside `[0, count-1]` under
every sequence of user interactions (the back button is only rendered at
positive indices, the forward button only when a next submitter exists),
and a forward attempt at the last index routes to the free-voting page
without changing the index. -/
theorem claim_C8 (quota count : Nat) (hcount : 1 ≤ count) (acts : List Action) :
    (0 ≤ (runApp quota count acts).currentIndex ∧
      (runApp quota count acts).currentIndex < (count : Int)) ∧
    (∀ (s : SessionState) (env : SaveEnv),
      s.view = .vote → s.currentIndex = (count : Int) - 1 →
      step quota count s (.navNext env) = s ∧
      (step quota count s (.finishRepVoting env)).view = .freeVote ∧
      (step quota count s (.finishRepVoting env)).currentIndex = s.currentIndex) := by
  constructor
  · apply foldl_index_bounds
    · simp [initState]
    · simp only [initState]
      omega
  · intro s env hview hidx
    have hno : ¬ (s.view = View.vote ∧ s.currentIndex + 1 < (count : Int)) := by
      rintro ⟨-, hlt⟩
      rw [hidx] at hlt
      omega
    have hyes : s.view = View.vote ∧ ¬ s.currentIndex + 1 < (count : Int) := by
      refine ⟨hview, ?_⟩
      rw [hidx]
      omega
    refine ⟨?_, ?_, ?_⟩
    · simp only [step, if_neg hno]
    · simp only [step, if_pos hyes]
      exact (transitionAndSave_fields env (some .freeVote) 0 s).2.2.2
    · simp only [step, if_pos hyes]
      rw [(transitionAndSave_fields env (some .freeVote) 0 s).1]
      omega

/-- Witness for C8 at `count = 2`, with a trace that logs in, starts
voting, steps forward, attempts another forward step (routed to
free-voting instead), and the last-index conjunct applied concretely. -/
theorem claim_C8_witness :
    (0 ≤ (runApp 5 2 [Action.decideLogin "2Hx" [] [] [] 2, Action.startVoting,
        Action.navNext ⟨false, true, true, "t"⟩,
        Action.finishRepVoting ⟨false, true, true, "t"⟩]).currentIndex ∧
      (runApp 5 2 [Action.decideLogin "2Hx" [] [] [] 2, Action.startVoting,
        Action.navNext ⟨false, true, true, "t"⟩,
        Action.finishRepVoting ⟨false, true, true, "t"⟩]).currentIndex < (2 : Int)) ∧
    (step 5 2 { initState with view := .vote, currentIndex := 1 }
        (.navNext ⟨false, true, true, "t"⟩) =
      { initState with view := .vote, currentIndex := 1 } ∧
      (step 5 2 { initState with view := .vote, currentIndex := 1 }
        (.finishRepVoting ⟨false, true, true, "t"⟩)).view = .freeVote) := by
  have h := claim_C8 5 2 (by decide) [Action.decideLogin "2Hx" [] [] [] 2,
    Action.startVoting, Action.navNext ⟨false, true, true, "t"⟩,
    Action.finishRepVoting ⟨false, true, true, "t"⟩]
  have h2 := h.2 { initState with view := .vote, currentIndex := 1 }
    ⟨false, true, true, "t"⟩ (by decide) (by decide)
  exact ⟨h.1, h2.1, h2.2.1⟩

theorem step_results_inv (quota count : Nat) (s : SessionState) (a : Action)
    (h1 : s.view = .results → s.syncSaveOk = true)
    (h2 : s.votingComplete = true → s.syncSaveOk = true) :
    ((step quota count s a).view = .results → (step quota count s a).syncSaveOk = true) ∧
    ((step quota count s a).votingComplete = true →
      (step quota count s a).syncSaveOk = true) := by
  cases a with
  | decideLogin name voted free fav row =>
      simp only [step]
      split <;> simp_all
  | startVoting =>
      simp only [step]
      split <;> simp_all
  | openFavorites env =>
      simp only [step]
      split
      · rcases transitionAndSave_fields env (some .favorites) 0 s with ⟨-, hvc, hso, hv⟩
        rw [hvc, hso, hv]
        simp_all
      · exact ⟨h1, h2⟩
  | closeFavorites env =>
      simp only [step]
      split
      · rcases transitionAndSave_fields env (some .vote) 0 s with ⟨-, hvc, hso, hv⟩
        rw [hvc, hso, hv]
        simp_all
      · exact ⟨h1, h2⟩
  | navPrev env =>
      simp only [step]
      split
      · rcases transitionAndSave_fields env none (-1) s with ⟨-, hvc, hso, hv⟩
        rw [hvc, hso, hv]
        simp_all
      · exact ⟨h1, h2⟩
  | navNext env =>
      simp only [step]
      split
      · rcases transitionAndSave_fields env none 1 s with ⟨-, hvc, hso, hv⟩
        rw [hvc, hso, hv]
        simp_all
      · exact ⟨h1, h2⟩
  | finishRepVoting env =>
      simp only [step]
      split
      · rcases transitionAndSave_fields env (some .freeVote) 0 s with ⟨-, hvc, hso, hv⟩
        rw [hvc, hso, hv]
        simp_all
      · exact ⟨h1, h2⟩
  | completeVoting env =>
      simp only [step]
      split
      · split
        · constructor <;> intro <;> rfl
        · rename_i hguard hns
          constructor
          · intro hres
            simp only at hres
            rw [hguard.1] at hres
            simp at hres
          · intro hvc
            simp only at hvc
            rw [hguard.2] at hvc
            simp at hvc
      · exact ⟨h1, h2⟩
  | viewResults =>
      simp only [step]
      split
      · rename_i hguard
        have := h2 hguard.2
        constructor <;> intro <;> simpa using this
      · exact ⟨h1, h2⟩
  | backToFreeVote env =>
      simp only [step]
      split
      · rcases transitionAndSave_fields env (some .freeVote) 0 s with ⟨-, hvc, hso, hv⟩
        rw [hvc, hso, hv]
        simp_all
      · exact ⟨h1, h2⟩
  | repVote sub pid =>
      simp only [step]
      split
      · rcases (mutation_fields s sub pid quota).1 with ⟨-, hvc, hso, hv⟩
        rw [hvc, hso, hv]
        exact ⟨h1, h2⟩
      · exact ⟨h1, h2⟩
  | favToggle pid =>
      simp only [step]
      split
      · rcases (mutation_fields s "" pid quota).2.1 with ⟨-, hvc, hso, hv⟩
        rw [hvc, hso, hv]
        exact ⟨h1, h2⟩
      · exact ⟨h1, h2⟩
  | freeAdd pid =>
      simp only [step]
      split
      · rcases (mutation_fields s "" pid quota).2.2.1 with ⟨-, hvc, hso, hv⟩
        rw [hvc, hso, hv]
        exact ⟨h1, h2⟩
      · exact ⟨h1, h2⟩
  | freeRemove pid =>
      simp only [step]
      split
      · rcases (mutation_fields s "" pid quota).2.2.2 with ⟨-, hvc, hso, hv⟩
        rw [hvc, hso, hv]
        exact ⟨h1, h2⟩
      · exact ⟨h1, h2⟩

theorem foldl_results_inv (quota count : Nat) :
    ∀ (acts : List Action) (s : SessionState),
      (s.view = .results → s.syncSaveOk = true) →
      (s.votingComplete = true → s.syncSaveOk = true) →
      ((acts.foldl (step quota count) s).view = .results →
        (acts.foldl (step quota count) s).syncSaveOk = true) ∧
      ((acts.foldl (step quota count) s).votingComplete = true →
        (acts.foldl (step quota count) s).syncSaveOk = true) := by
  intro acts
  induction acts with
  | nil => intro s h1 h2; exact ⟨h1, h2⟩
  | cons a t ih =>
      intro s h1 h2
      have hstep := step_results_inv quota count s a h1 h2
      exact ih (step quota count s a) hstep.1 hstep.2

/-- C5: the Results view is gated on a successful synchronous save.  (a)
Under every sequence of user interactions, a state showing the results
page has recorded a prior successful synchronous complete-save
(`syncSaveOk`, which only the success branch of the complete handler
sets).  (b) When the synchronous save of the complete action finishes with
a non-`success` result, the session stays on the free-voting page with the
dirty flag still set and `voting_complete` still false.  (c) When it
finishes with `success`, the complete action sets `voting_complete` and
clears the dirty flag in the same step, before any further interaction. -/
theorem claim_C5 (quota count : Nat) (acts : List Action) :
    ((runApp quota count acts).view = .results →
      (runApp quota count acts).syncSaveOk = true) ∧
    (∀ (s : SessionState) (env : SaveEnv),
      s.view = .freeVote → s.votingComplete = false → s.dirty = true →
      (save_all_progress env s.dirty s.userRowIndex (jsonDict s.votedFor)
        (jsonList s.freeVotes) (jsonList s.favorites)).status ≠ .success →
      (step quota count s (.completeVoting env)).view = .freeVote ∧
      (step quota count s (.completeVoting env)).dirty = true ∧
      (step quota count s (.completeVoting env)).votingComplete = false) ∧
    (∀ (s : SessionState) (env : SaveEnv),
      s.view = .freeVote → s.votingComplete = false →
      (save_all_progress env s.dirty s.userRowIndex (jsonDict s.votedFor)
        (jsonList s.freeVotes) (jsonList s.favorites)).status = .success →
      (step quota count s (.completeVoting env)).votingComplete = true ∧
      (step quota count s (.completeVoting env)).dirty = false ∧
      (step quota count s (.completeVoting env)).syncSaveOk = true) := by
  refine ⟨?_, ?_, ?_⟩
  · exact (foldl_results_inv quota count acts initState (by intro h; simp [initState] at h)
      (by intro h; simp [initState] at h)).1
  · intro s env hview hvc hdirty hns
    simp only [step, if_pos (⟨hview, hvc⟩ : s.view = View.freeVote ∧ s.votingComplete = false)]
    rw [if_neg hns]
    refine ⟨hview, ?_, hvc⟩
    rcases env with ⟨lb, ao, wo, ts⟩
    cases lb <;> cases ao <;> cases wo <;>
      simp_all [save_all_progress]
  · intro s env hview hvc hsucc
    simp only [step, if_pos (⟨hview, hvc⟩ : s.view = View.freeVote ∧ s.votingComplete = false)]
    rw [if_pos hsucc]
    refine ⟨rfl, ?_, rfl⟩
    rcases env with ⟨lb, ao, wo, ts⟩
    cases lb <;> cases ao <;> cases wo <;>
      simp_all [save_all_progress]

/-- Witness for C5: a full concrete trace that logs in, reaches the
free-voting page, completes with a successful synchronous save and views
the results; plus the complete action at a concrete skipped save. -/
theorem claim_C5_witness :
    ((runApp 5 1 [Action.decideLogin "2Hx" [] [] [] 2, Action.startVoting,
        Action.finishRepVoting ⟨false, true, true, "t"⟩,
        Action.completeVoting ⟨false, true, true, "t"⟩,
        Action.viewResults]).view = .results →
      (runApp 5 1 [Action.decideLogin "2Hx" [] [] [] 2, Action.startVoting,
        Action.finishRepVoting ⟨false, true, true, "t"⟩,
        Action.completeVoting ⟨false, true, true, "t"⟩,
        Action.viewResults]).syncSaveOk = true) ∧
    ((step 5 1 { initState with view := .freeVote, dirty := true }
        (.completeVoting ⟨true, true, true, "t"⟩)).view = .freeVote ∧
      (step 5 1 { initState with view := .freeVote, dirty := true }
        (.completeVoting ⟨true, true, true, "t"⟩)).dirty = true ∧
      (step 5 1 { initState with view := .freeVote, dirty := true }
        (.completeVoting ⟨true, true, true, "t"⟩)).votingComplete = false) := by
  have h := claim_C5 5 1 [Action.decideLogin "2Hx" [] [] [] 2, Action.startVoting,
    Action.finishRepVoting ⟨false, true, true, "t"⟩,
    Action.completeVoting ⟨false, true, true, "t"⟩, Action.viewResults]
  refine ⟨h.1, ?_⟩
  exact h.2.1 { initState with view := .freeVote, dirty := true }
    ⟨true, true, true, "t"⟩ rfl rfl rfl (by decide)

/-- Modelled from the spec: the repository source under `src/` contains no
RangeCompactor implementation (spec §4.1 is its only description), so this
is the scan of that algorithm: with the open interval `[start, stop]` in
hand, "extend the current interval while the next index is exactly
current_end + 1, otherwise close it and start a new one". -/
def compactRuns (start stop : Nat) : List Nat → List (Nat × Nat)
  | [] => [(start, stop)]
  | y :: ys =>
      if y = stop + 1 then compactRuns start y ys
      else (start, stop) :: compactRuns y y ys

/-- Modelled from the spec (§4.1): "sort-dedup the input, scan once";
sparse row indices → ordered closed intervals; "empty input yields an
empty sequence". -/
def rangeCompact (s : Finset ℕ) : List (Nat × Nat) :=
  match s.sort (· ≤ ·) with
  | [] => []
  | x :: xs => compactRuns x x xs

/-- Re-expansion of a sequence of closed intervals into the indices they
cover. -/
def expandRanges (rs : List (Nat × Nat)) : List Nat :=
  rs.flatMap (fun r => List.range' r.1 (r.2 + 1 - r.1))

theorem mem_expand_compactRuns (n : Nat) :
    ∀ (l : List Nat) (start stop : Nat), start ≤ stop → List.Chain (· < ·) stop l →
      (n ∈ expandRanges (compactRuns start stop l) ↔
        (start ≤ n ∧ n ≤ stop) ∨ n ∈ l) := by
  intro l
  induction l with
  | nil =>
      intro start stop hss _
      simp only [compactRuns, expandRanges, List.flatMap_cons, List.flatMap_nil,
        List.append_nil, List.mem_range'_1, List.not_mem_nil, or_false]
      omega
  | cons y ys ih =>
      intro start stop hss hch
      rcases List.chain_cons.1 hch with ⟨hsy, hch2⟩
      by_cases hy : y = stop + 1
      · rw [show compactRuns start stop (y :: ys) = compactRuns start y ys by
          simp [compactRuns, hy]]
        rw [ih start y (by omega) hch2, List.mem_cons]
        constructor
        · rintro (⟨ha, hb⟩ | h)
          · rcases Nat.lt_or_ge n y with hlt | hge
            · left
              omega
            · right
              left
              omega
          · right
            right
            exact h
        · rintro (⟨ha, hb⟩ | h | h)
          · left
            omega
          · left
            omega
          · right
            exact h
      · rw [show compactRuns start stop (y :: ys) =
            (start, stop) :: compactRuns y y ys by simp [compactRuns, hy]]
        have hexp : expandRanges ((start, stop) :: compactRuns y y ys) =
            List.range' start (stop + 1 - start) ++ expandRanges (compactRuns y y ys) := by
          simp [expandRanges]
        rw [hexp, List.mem_append, ih y y (Nat.le_refl y) hch2,
          List.mem_range'_1, List.mem_cons]
        constructor
        · rintro (⟨ha, hb⟩ | ⟨ha, hb⟩ | h)
          · left
            omega
          · right
            left
            omega
          · right
            right
            exact h
        · rintro (⟨ha, hb⟩ | h | h)
          · left
            omega
          · right
            left
            omega
          · right
            right
            exact h

theorem compactRuns_head_fst :
    ∀ (l : List Nat) (start stop : Nat),
      ((compactRuns start stop l).head?).map Prod.fst = some start := by
  intro l
  induction l with
  | nil => intro start stop; rfl
  | cons y ys ih =>
      intro start stop
      by_cases hy : y = stop + 1
      · rw [show compactRuns start stop (y :: ys) = compactRuns start y ys by
          simp [compactRuns, hy]]
        exact ih start y
      · rw [show compactRuns start stop (y :: ys) =
            (start, stop) :: compactRuns y y ys by simp [compactRuns, hy]]
        rfl

theorem compactRuns_chain_wf :
    ∀ (l : List Nat) (start stop : Nat), start ≤ stop → List.Chain (· < ·) stop l →
      List.Chain' (fun p q : Nat × Nat => p.2 + 1 < q.1) (compactRuns start stop l) ∧
      ∀ r ∈ compactRuns start stop l, r.1 ≤ r.2 := by
  intro l
  induction l with
  | nil =>
      intro start stop hss _
      constructor
      · simp [compactRuns]
      · intro r hr
        simp only [compactRuns, List.mem_singleton] at hr
        subst hr
        exact hss
  | cons y ys ih =>
      intro start stop hss hch
      rcases List.chain_cons.1 hch with ⟨hsy, hch2⟩
      by_cases hy : y = stop + 1
      · rw [show compactRuns start stop (y :: ys) = compactRuns start y ys by
          simp [compactRuns, hy]]
        exact ih start y (by omega) hch2
      · rw [show compactRuns start stop (y :: ys) =
            (start, stop) :: compactRuns y y ys by simp [compactRuns, hy]]
        rcases ih y y (Nat.le_refl y) hch2 with ⟨hchain, hwf⟩
        constructor
        · rw [List.chain'_cons']
          refine ⟨?_, hchain⟩
          intro z hz
          have hhd := compactRuns_head_fst ys y y
          rw [hz] at hhd
          have hz1 : z.1 = y := by
            injection hhd
          simp only [hz1]
          omega
        · intro r hr
          rcases List.mem_cons.1 hr with h | h
          · subst h
            exact hss
          · exact hwf r h

theorem chain_fst_of_gap :
    ∀ (rs : List (Nat × Nat)), (∀ r ∈ rs, r.1 ≤ r.2) →
      List.Chain' (fun p q : Nat × Nat => p.2 + 1 < q.1) rs →
      List.Chain' (fun p q : Nat × Nat => p.1 < q.1) rs := by
  intro rs
  induction rs with
  | nil => intro _ _; trivial
  | cons a t ih =>
      intro hwf hch
      cases t with
      | nil => simp
      | cons b t2 =>
          rcases List.chain'_cons.1 hch with ⟨hab, hch2⟩
          rw [List.chain'_cons]
          refine ⟨?_, ih (fun r hr => hwf r (List.mem_cons_of_mem a hr)) hch2⟩
          have hawf := hwf a (List.mem_cons_self a _)
          omega

/-- C9 (spec-modelled RangeCompactor): for every finite set of row
indices, re-expanding the returned closed intervals yields exactly the
input set; consecutive returned intervals are separated by a gap of at
least one (no overlap, no adjacency); every interval is well-formed
(`start ≤ end`), hence the sequence is sorted strictly ascending by
`start`; and the empty set compacts to the empty sequence. -/
theorem claim_C9 (s : Finset ℕ) :
    (∀ n : ℕ, n ∈ expandRanges (rangeCompact s) ↔ n ∈ s) ∧
    List.Chain' (fun p q : Nat × Nat => p.2 + 1 < q.1) (rangeCompact s) ∧
    (∀ r ∈ rangeCompact s, r.1 ≤ r.2) ∧
    List.Chain' (fun p q : Nat × Nat => p.1 < q.1) (rangeCompact s) ∧
    rangeCompact (∅ : Finset ℕ) = [] := by
  have hsorted : List.Sorted (· < ·) (s.sort (· ≤ ·)) := Finset.sort_sorted_lt s
  rcases hrep : s.sort (· ≤ ·) with _ | ⟨x, xs⟩
  · have hnil : rangeCompact s = [] := by
      unfold rangeCompact
      rw [hrep]
    refine ⟨?_, ?_, ?_, ?_, ?_⟩
    · intro n
      rw [hnil]
      have : n ∉ s := by
        intro hmem
        rw [← Finset.mem_sort (· ≤ ·), hrep] at hmem
        simp at hmem
      simp [expandRanges, this]
    · rw [hnil]
      trivial
    · rw [hnil]
      intro r hr
      simp at hr
    · rw [hnil]
      trivial
    · unfold rangeCompact
      rw [Finset.sort_empty]
  · have hcompact : rangeCompact s = compactRuns x x xs := by
      unfold rangeCompact
      rw [hrep]
    rw [hrep] at hsorted
    have hchain : List.Chain (· < ·) x xs := by
      have hc : List.Chain' (· < ·) (x :: xs) := List.chain'_iff_pairwise.2 hsorted
      exact hc
    rcases compactRuns_chain_wf xs x x (Nat.le_refl x) hchain with ⟨hgap, hwf⟩
    refine ⟨?_, ?_, ?_, ?_, ?_⟩
    · intro n
      have hmem : n ∈ x :: xs ↔ n ∈ s := by
        rw [← hrep]
        exact Finset.mem_sort _
      rw [hcompact, mem_expand_compactRuns n xs x x (Nat.le_refl x) hchain,
        ← hmem, List.mem_cons]
      constructor
      · rintro (⟨h1, h2⟩ | h)
        · left
          omega
        · right
          exact h
      · rintro (h | h)
        · left
          subst h
          exact ⟨Nat.le_refl n, Nat.le_refl n⟩
        · right
          exact h
    · rw [hcompact]
      exact hgap
    · rw [hcompact]
      exact hwf
    · rw [hcompact]
      exact chain_fst_of_gap _ hwf hgap
    · unfold rangeCompact
      rw [Finset.sort_empty]

/-- Witness for C9: the spec example `{2,3,4,8,9,11} → [(2,4),(8,9),(11,11)]`,
with the coverage and well-formedness conjuncts applied at concrete
points. -/
theorem claim_C9_witness :
    (3 ∈ expandRanges (rangeCompact ({2, 3, 4, 8, 9, 11} : Finset ℕ)) ↔
      3 ∈ ({2, 3, 4, 8, 9, 11} : Finset ℕ)) ∧
    (5 ∈ expandRanges (rangeCompact ({2, 3, 4, 8, 9, 11} : Finset ℕ)) ↔
      5 ∈ ({2, 3, 4, 8, 9, 11} : Finset ℕ)) ∧
    rangeCompact (∅ : Finset ℕ) = [] := by
  have h := claim_C9 ({2, 3, 4, 8, 9, 11} : Finset ℕ)
  exact ⟨h.1 3, h.1 5, h.2.2.2.2⟩

/-- C10 (frame effect): toggling a favorite changes at most the favorites
sequence and the dirty flag — the representative-votes map, the free-votes
sequence, the current index and the current view are untouched. -/
theorem claim_C10 (s : SessionState) (pid : String) :
    (toggleFavorite s pid).votedFor = s.votedFor ∧
    (toggleFavorite s pid).freeVotes = s.freeVotes ∧
    (toggleFavorite s pid).currentIndex = s.currentIndex ∧
    (toggleFavorite s pid).view = s.view := by
  unfold toggleFavorite
  split <;> exact ⟨rfl, rfl, rfl, rfl⟩

end PhotoVote
